import Mathlib

/-
Verification of the commit-reveal double rock-paper-scissors session contract
(src/contracts/ctm/src/lib.rs).

Modelling conventions:
- Machine bytes are `Nat` values; byte strings (`Bytes`, `BytesN<32>`) are
  `List Nat`.  The `as u8` cast in the source is `% 256`.
- `keccak256` is an arbitrary function `List Nat → List Nat` passed as a
  parameter: none of the verified properties depend on any property of the
  hash beyond functionality, and instantiating it (for example with the
  identity function) yields concrete executable witnesses.
- Addresses are opaque identities, modelled as `Nat`.
- Host authorization (`require_auth`) and the external Game Hub client are
  outside the core per the specification; auth is assumed to succeed, and the
  `end_game` notification of `reveal_choice` is modelled as an extra output
  (`Option Bool`, the `player1_won` flag passed to the hub when it is called).
- A Rust `panic!` / `Option::unwrap` on `None` aborts the transaction; the
  `Outcome.panic` constructor models that abort.
- Storage for one session identifier is an `Option Game` cell; `save_game`
  writes the whole record, early error returns leave the cell untouched.
-/

namespace Ctm

abbrev Bytes := List Nat
abbrev Digest := List Nat

/-- Error enum of the contract (lib.rs lines 57-67). -/
inductive Error where
  | GameNotFound
  | NotPlayer
  | WrongPhase
  | AlreadyCommitted
  | InvalidHand
  | HandsMustDiffer
  | HashMismatch
  | InvalidChoice
  | GameAlreadyEnded
  deriving Repr, DecidableEq

/-- The session record `Game` (lib.rs lines 84-109). -/
structure Game where
  player1 : Nat
  player2 : Nat
  player1_points : Int
  player2_points : Int
  phase : Nat
  p1_commit : Option Digest
  p2_commit : Option Digest
  p1_left : Option Nat
  p1_right : Option Nat
  p2_left : Option Nat
  p2_right : Option Nat
  p1_choice_commit : Option Digest
  p2_choice_commit : Option Digest
  p1_kept : Option Nat
  p2_kept : Option Nat
  winner : Option Nat
  deriving Repr, DecidableEq

/-- Result of one contract entry point: `Ok`, a typed `Err`, or a host trap
(`panic!` / `unwrap` on `None`), which aborts without persisting anything. -/
inductive Outcome (α : Type) where
  | ok (a : α)
  | err (e : Error)
  | panic
  deriving Repr, DecidableEq

/-- hash_hands (lib.rs lines 132-138): digest of the preimage
`left_hand(1 byte) ++ right_hand(1 byte) ++ salt(32 bytes)`. -/
def hash_hands (keccak : Bytes → Digest) (left right : Nat) (salt : Bytes) : Digest :=
  keccak ((left % 256) :: (right % 256) :: salt)

/-- hash_choice (lib.rs lines 143-148): digest of the preimage
`choice_index(1 byte) ++ salt(32 bytes)`. -/
def hash_choice (keccak : Bytes → Digest) (choice : Nat) (salt : Bytes) : Digest :=
  keccak ((choice % 256) :: salt)

/-- rps_beats (lib.rs lines 152-156). -/
def rps_beats (hand1 hand2 : Nat) : Bool :=
  (hand1 == 0 && hand2 == 2)
  || (hand1 == 1 && hand2 == 0)
  || (hand1 == 2 && hand2 == 1)

/-- The outcome resolver: the `player1_won` expression of reveal_choice
(lib.rs line 487): `rps_beats(h1, h2) || h1 == h2`. -/
def resolve (keptA keptB : Nat) : Bool :=
  rps_beats keptA keptB || keptA == keptB

/-- start_game (lib.rs lines 191-252).  Panics when the two players are
equal; otherwise builds the fresh phase-1 record.  Note the source never
checks whether a record for the session already exists: the fresh record
overwrites any stored one (see `step`). -/
def start_game (player1 player2 : Nat) (player1_points player2_points : Int) :
    Outcome Game :=
  if player1 = player2 then .panic
  else
    .ok
      { player1 := player1
        player2 := player2
        player1_points := player1_points
        player2_points := player2_points
        phase := 1
        p1_commit := none
        p2_commit := none
        p1_left := none
        p1_right := none
        p2_left := none
        p2_right := none
        p1_choice_commit := none
        p2_choice_commit := none
        p1_kept := none
        p2_kept := none
        winner := none }

/-- commit_hands (lib.rs lines 259-299). -/
def commit_hands (store : Option Game) (player : Nat) (hands_hash : Digest) :
    Outcome Game :=
  match store with
  | none => .err .GameNotFound
  | some game =>
    if game.phase ≠ 1 then .err .WrongPhase
    else
      match
        (if player = game.player1 then
          if game.p1_commit.isSome then Outcome.err .AlreadyCommitted
          else Outcome.ok { game with p1_commit := some hands_hash }
        else if player = game.player2 then
          if game.p2_commit.isSome then Outcome.err .AlreadyCommitted
          else Outcome.ok { game with p2_commit := some hands_hash }
        else Outcome.err .NotPlayer) with
      | .ok g2 =>
        .ok (if g2.p1_commit.isSome && g2.p2_commit.isSome
             then { g2 with phase := 2 } else g2)
      | .err e => .err e
      | .panic => .panic

/-- reveal_hands (lib.rs lines 308-368). -/
def reveal_hands (keccak : Bytes → Digest) (store : Option Game)
    (player left_hand right_hand : Nat) (salt : Bytes) : Outcome Game :=
  match store with
  | none => .err .GameNotFound
  | some game =>
    if game.phase ≠ 2 then .err .WrongPhase
    else if left_hand > 2 ∨ right_hand > 2 then .err .InvalidHand
    else if left_hand = right_hand then .err .HandsMustDiffer
    else
      match
        (if player = game.player1 then
          if game.p1_left.isSome then Outcome.err .AlreadyCommitted
          else
            match game.p1_commit with
            | none => Outcome.panic
            | some commit =>
              if hash_hands keccak left_hand right_hand salt ≠ commit then
                Outcome.err .HashMismatch
              else
                Outcome.ok
                  { game with p1_left := some left_hand, p1_right := some right_hand }
        else if player = game.player2 then
          if game.p2_left.isSome then Outcome.err .AlreadyCommitted
          else
            match game.p2_commit with
            | none => Outcome.panic
            | some commit =>
              if hash_hands keccak left_hand right_hand salt ≠ commit then
                Outcome.err .HashMismatch
              else
                Outcome.ok
                  { game with p2_left := some left_hand, p2_right := some right_hand }
        else Outcome.err .NotPlayer) with
      | .ok g2 =>
        .ok (if g2.p1_left.isSome && g2.p2_left.isSome
             then { g2 with phase := 3 } else g2)
      | .err e => .err e
      | .panic => .panic

/-- commit_choice (lib.rs lines 376-415). -/
def commit_choice (store : Option Game) (player : Nat) (choice_hash : Digest) :
    Outcome Game :=
  match store with
  | none => .err .GameNotFound
  | some game =>
    if game.phase ≠ 3 then .err .WrongPhase
    else
      match
        (if player = game.player1 then
          if game.p1_choice_commit.isSome then Outcome.err .AlreadyCommitted
          else Outcome.ok { game with p1_choice_commit := some choice_hash }
        else if player = game.player2 then
          if game.p2_choice_commit.isSome then Outcome.err .AlreadyCommitted
          else Outcome.ok { game with p2_choice_commit := some choice_hash }
        else Outcome.err .NotPlayer) with
      | .ok g2 =>
        .ok (if g2.p1_choice_commit.isSome && g2.p2_choice_commit.isSome
             then { g2 with phase := 4 } else g2)
      | .err e => .err e
      | .panic => .panic

/-- reveal_choice (lib.rs lines 424-509).  The second component of the `ok`
result is the `end_game` notification to the Game Hub: `some player1_won`
when the hub is called in this invocation, `none` otherwise. -/
def reveal_choice (keccak : Bytes → Digest) (store : Option Game)
    (player choice_index : Nat) (salt : Bytes) : Outcome (Game × Option Bool) :=
  match store with
  | none => .err .GameNotFound
  | some game =>
    if game.phase ≠ 4 then .err .WrongPhase
    else if choice_index > 1 then .err .InvalidChoice
    else
      match
        (if player = game.player1 then
          if game.p1_kept.isSome then Outcome.err .AlreadyCommitted
          else
            match game.p1_choice_commit with
            | none => Outcome.panic
            | some commit =>
              if hash_choice keccak choice_index salt ≠ commit then
                Outcome.err .HashMismatch
              else
                match (if choice_index = 0 then game.p1_left else game.p1_right) with
                | none => Outcome.panic
                | some kept => Outcome.ok { game with p1_kept := some kept }
        else if player = game.player2 then
          if game.p2_kept.isSome then Outcome.err .AlreadyCommitted
          else
            match game.p2_choice_commit with
            | none => Outcome.panic
            | some commit =>
              if hash_choice keccak choice_index salt ≠ commit then
                Outcome.err .HashMismatch
              else
                match (if choice_index = 0 then game.p2_left else game.p2_right) with
                | none => Outcome.panic
                | some kept => Outcome.ok { game with p2_kept := some kept }
        else Outcome.err .NotPlayer) with
      | .ok g2 =>
        match g2.p1_kept, g2.p2_kept with
        | some h1, some h2 =>
          .ok
            ({ g2 with
                winner := some (if resolve h1 h2 then g2.player1 else g2.player2)
                phase := 5 },
              some (resolve h1 h2))
        | _, _ => .ok (g2, none)
      | .err e => .err e
      | .panic => .panic

/-- get_game (lib.rs lines 514-520). -/
def get_game (store : Option Game) : Outcome Game :=
  match store with
  | none => .err .GameNotFound
  | some game => .ok game

/-- One external call to a public entry point of the contract, for a fixed
session identifier. -/
inductive Call where
  | startGame (player1 player2 : Nat) (player1_points player2_points : Int)
  | commitHands (player : Nat) (hands_hash : Digest)
  | revealHands (player left_hand right_hand : Nat) (salt : Bytes)
  | commitChoice (player : Nat) (choice_hash : Digest)
  | revealChoice (player choice_index : Nat) (salt : Bytes)
  | getGame
  deriving Repr, DecidableEq

/-- Whether a call is a session-start call. -/
def Call.isStart : Call → Bool
  | .startGame _ _ _ _ => true
  | _ => false

/-- Effect of one outcome on the storage cell: only an `ok` result is
persisted (`save_game` is reached only on the success path); errors and
traps roll back. -/
def applyOutcome (store : Option Game) : Outcome Game → Option Game
  | .ok g => some g
  | _ => store

/-- Effect of one public call on the storage cell of the session. -/
def step (keccak : Bytes → Digest) (store : Option Game) : Call → Option Game
  | .startGame p1 p2 a b => applyOutcome store (start_game p1 p2 a b)
  | .commitHands p h => applyOutcome store (commit_hands store p h)
  | .revealHands p l r s => applyOutcome store (reveal_hands keccak store p l r s)
  | .commitChoice p h => applyOutcome store (commit_choice store p h)
  | .revealChoice p i s =>
    match reveal_choice keccak store p i s with
    | .ok (g, _) => some g
    | _ => store
  | .getGame => store

/-- Storage cell after a sequence of public calls, starting from `store`. -/
def run (keccak : Bytes → Digest) (store : Option Game) (calls : List Call) :
    Option Game :=
  List.foldl (fun s c => step keccak s c) store calls

/-! Inversion lemmas: a successful call determines exactly what happened. -/

/-- Inversion for start_game: success requires distinct players and yields
the fresh phase-1 record. -/
theorem start_game_ok {p1 p2 : Nat} {a b : Int} {g' : Game}
    (hres : start_game p1 p2 a b = .ok g') :
    p1 ≠ p2 ∧
    g' = { player1 := p1, player2 := p2, player1_points := a, player2_points := b
           phase := 1
           p1_commit := none, p2_commit := none
           p1_left := none, p1_right := none, p2_left := none, p2_right := none
           p1_choice_commit := none, p2_choice_commit := none
           p1_kept := none, p2_kept := none, winner := none } := by
  unfold start_game at hres
  split at hres
  · exact absurd hres (by simp)
  · next hne => exact ⟨hne, by injection hres with h; exact h.symm⟩

/-- Inversion for commit_hands. -/
theorem commit_hands_ok {g g' : Game} {p : Nat} {hsh : Digest}
    (hres : commit_hands (some g) p hsh = .ok g') :
    g.phase = 1 ∧
    ((p = g.player1 ∧ g.p1_commit = none ∧
        g' = (if g.p2_commit.isSome
              then { g with p1_commit := some hsh, phase := 2 }
              else { g with p1_commit := some hsh })) ∨
     (p ≠ g.player1 ∧ p = g.player2 ∧ g.p2_commit = none ∧
        g' = (if g.p1_commit.isSome
              then { g with p2_commit := some hsh, phase := 2 }
              else { g with p2_commit := some hsh }))) := by
  simp only [commit_hands] at hres
  split at hres
  next hphase => exact absurd hres (by simp)
  next hphase =>
    refine ⟨by omega, ?_⟩
    split at hres
    next g2 heq =>
      injection hres with hres
      split at heq
      next hp1 =>
        split at heq
        · exact absurd heq (by simp)
        next hcommit =>
          injection heq with heq
          subst heq
          refine .inl ⟨hp1, Option.not_isSome_iff_eq_none.mp hcommit, ?_⟩
          simp only [Option.isSome_some, Bool.true_and] at hres
          exact hres.symm
      next hp1 =>
        split at heq
        next hp2 =>
          split at heq
          · exact absurd heq (by simp)
          next hcommit =>
            injection heq with heq
            subst heq
            refine .inr ⟨hp1, hp2, Option.not_isSome_iff_eq_none.mp hcommit, ?_⟩
            simp only [Option.isSome_some, Bool.and_true] at hres
            exact hres.symm
        next => exact absurd heq (by simp)
    next e heq => exact absurd hres (by simp)
    next heq => exact absurd hres (by simp)

/-- Inversion for reveal_hands. -/
theorem reveal_hands_ok {keccak : Bytes → Digest} {g g' : Game} {p l r : Nat}
    {salt : Bytes}
    (hres : reveal_hands keccak (some g) p l r salt = .ok g') :
    g.phase = 2 ∧ l ≤ 2 ∧ r ≤ 2 ∧ l ≠ r ∧
    ((p = g.player1 ∧ g.p1_left = none ∧
        (∃ c, g.p1_commit = some c ∧ hash_hands keccak l r salt = c) ∧
        g' = (if g.p2_left.isSome
              then { g with p1_left := some l, p1_right := some r, phase := 3 }
              else { g with p1_left := some l, p1_right := some r })) ∨
     (p ≠ g.player1 ∧ p = g.player2 ∧ g.p2_left = none ∧
        (∃ c, g.p2_commit = some c ∧ hash_hands keccak l r salt = c) ∧
        g' = (if g.p1_left.isSome
              then { g with p2_left := some l, p2_right := some r, phase := 3 }
              else { g with p2_left := some l, p2_right := some r }))) := by
  simp only [reveal_hands] at hres
  split at hres
  next hphase => exact absurd hres (by simp)
  next hphase =>
  split at hres
  next hdom => exact absurd hres (by simp)
  next hdom =>
  split at hres
  next heqlr => exact absurd hres (by simp)
  next heqlr =>
  refine ⟨by omega, by omega, by omega, heqlr, ?_⟩
  split at hres
  next g2 heq =>
    injection hres with hres
    split at heq
    next hp1 =>
      split at heq
      · exact absurd heq (by simp)
      next hrev =>
        split at heq
        next hcnone => exact absurd heq (by simp)
        next c hcsome =>
          split at heq
          next hhash => exact absurd heq (by simp)
          next hhash =>
            injection heq with heq
            subst heq
            refine .inl ⟨hp1, Option.not_isSome_iff_eq_none.mp hrev,
              ⟨c, hcsome, not_not.mp hhash⟩, ?_⟩
            simp only [Option.isSome_some, Bool.true_and] at hres
            exact hres.symm
    next hp1 =>
      split at heq
      next hp2 =>
        split at heq
        · exact absurd heq (by simp)
        next hrev =>
          split at heq
          next hcnone => exact absurd heq (by simp)
          next c hcsome =>
            split at heq
            next hhash => exact absurd heq (by simp)
            next hhash =>
              injection heq with heq
              subst heq
              refine .inr ⟨hp1, hp2, Option.not_isSome_iff_eq_none.mp hrev,
                ⟨c, hcsome, not_not.mp hhash⟩, ?_⟩
              simp only [Option.isSome_some, Bool.and_true] at hres
              exact hres.symm
      next => exact absurd heq (by simp)
  next e heq => exact absurd hres (by simp)
  next heq => exact absurd hres (by simp)

/-- Inversion for commit_choice. -/
theorem commit_choice_ok {g g' : Game} {p : Nat} {hsh : Digest}
    (hres : commit_choice (some g) p hsh = .ok g') :
    g.phase = 3 ∧
    ((p = g.player1 ∧ g.p1_choice_commit = none ∧
        g' = (if g.p2_choice_commit.isSome
              then { g with p1_choice_commit := some hsh, phase := 4 }
              else { g with p1_choice_commit := some hsh })) ∨
     (p ≠ g.player1 ∧ p = g.player2 ∧ g.p2_choice_commit = none ∧
        g' = (if g.p1_choice_commit.isSome
              then { g with p2_choice_commit := some hsh, phase := 4 }
              else { g with p2_choice_commit := some hsh }))) := by
  simp only [commit_choice] at hres
  split at hres
  next hphase => exact absurd hres (by simp)
  next hphase =>
    refine ⟨by omega, ?_⟩
    split at hres
    next g2 heq =>
      injection hres with hres
      split at heq
      next hp1 =>
        split at heq
        · exact absurd heq (by simp)
        next hcommit =>
          injection heq with heq
          subst heq
          refine .inl ⟨hp1, Option.not_isSome_iff_eq_none.mp hcommit, ?_⟩
          simp only [Option.isSome_some, Bool.true_and] at hres
          exact hres.symm
      next hp1 =>
        split at heq
        next hp2 =>
          split at heq
          · exact absurd heq (by simp)
          next hcommit =>
            injection heq with heq
            subst heq
            refine .inr ⟨hp1, hp2, Option.not_isSome_iff_eq_none.mp hcommit, ?_⟩
            simp only [Option.isSome_some, Bool.and_true] at hres
            exact hres.symm
        next => exact absurd heq (by simp)
    next e heq => exact absurd hres (by simp)
    next heq => exact absurd hres (by simp)

/-- Inversion for reveal_choice, including the resolution step and the
end_game notification. -/
theorem reveal_choice_ok {keccak : Bytes → Digest} {g g' : Game}
    {ev : Option Bool} {p i : Nat} {salt : Bytes}
    (hres : reveal_choice keccak (some g) p i salt = .ok (g', ev)) :
    g.phase = 4 ∧ i ≤ 1 ∧
    ((p = g.player1 ∧ g.p1_kept = none ∧
        (∃ c, g.p1_choice_commit = some c ∧ hash_choice keccak i salt = c) ∧
        (∃ kv, (if i = 0 then g.p1_left else g.p1_right) = some kv ∧
          ((∃ k2, g.p2_kept = some k2 ∧
              g' = { g with
                     p1_kept := some kv,
                     winner := some (if resolve kv k2 then g.player1 else g.player2),
                     phase := 5 } ∧
              ev = some (resolve kv k2)) ∨
           (g.p2_kept = none ∧ g' = { g with p1_kept := some kv } ∧ ev = none)))) ∨
     (p ≠ g.player1 ∧ p = g.player2 ∧ g.p2_kept = none ∧
        (∃ c, g.p2_choice_commit = some c ∧ hash_choice keccak i salt = c) ∧
        (∃ kv, (if i = 0 then g.p2_left else g.p2_right) = some kv ∧
          ((∃ k1, g.p1_kept = some k1 ∧
              g' = { g with
                     p2_kept := some kv,
                     winner := some (if resolve k1 kv then g.player1 else g.player2),
                     phase := 5 } ∧
              ev = some (resolve k1 kv)) ∨
           (g.p1_kept = none ∧ g' = { g with p2_kept := some kv } ∧ ev = none))))) := by
  simp only [reveal_choice] at hres
  split at hres
  next hphase => exact absurd hres (by simp)
  next hphase =>
  split at hres
  next hdom => exact absurd hres (by simp)
  next hdom =>
  refine ⟨by omega, by omega, ?_⟩
  split at hres
  next g2 heq =>
    split at heq
    next hp1 =>
      split at heq
      · exact absurd heq (by simp)
      next hkept =>
        split at heq
        next hcnone => exact absurd heq (by simp)
        next c hcsome =>
          split at heq
          next hhash => exact absurd heq (by simp)
          next hhash =>
            split at heq
            next hkv => exact absurd heq (by simp)
            next kv hkv =>
              injection heq with heq
              subst heq
              refine .inl ⟨hp1, Option.not_isSome_iff_eq_none.mp hkept,
                ⟨c, hcsome, not_not.mp hhash⟩, ⟨kv, hkv, ?_⟩⟩
              cases hp2k : g.p2_kept with
              | some k2 =>
                rw [show ({ g with p1_kept := some kv } : Game).p1_kept = some kv
                      from rfl,
                    show ({ g with p1_kept := some kv } : Game).p2_kept = g.p2_kept
                      from rfl, hp2k] at hres
                injection hres with hres
                injection hres with hres1 hres2
                exact .inl ⟨k2, rfl, hres1.symm, hres2.symm⟩
              | none =>
                rw [show ({ g with p1_kept := some kv } : Game).p1_kept = some kv
                      from rfl,
                    show ({ g with p1_kept := some kv } : Game).p2_kept = g.p2_kept
                      from rfl, hp2k] at hres
                injection hres with hres
                injection hres with hres1 hres2
                exact .inr ⟨rfl, hres1.symm, hres2.symm⟩
    next hp1 =>
      split at heq
      next hp2 =>
        split at heq
        · exact absurd heq (by simp)
        next hkept =>
          split at heq
          next hcnone => exact absurd heq (by simp)
          next c hcsome =>
            split at heq
            next hhash => exact absurd heq (by simp)
            next hhash =>
              split at heq
              next hkv => exact absurd heq (by simp)
              next kv hkv =>
                injection heq with heq
                subst heq
                refine .inr ⟨hp1, hp2, Option.not_isSome_iff_eq_none.mp hkept,
                  ⟨c, hcsome, not_not.mp hhash⟩, ⟨kv, hkv, ?_⟩⟩
                cases hp1k : g.p1_kept with
                | some k1 =>
                  rw [show ({ g with p2_kept := some kv } : Game).p2_kept = some kv
                        from rfl,
                      show ({ g with p2_kept := some kv } : Game).p1_kept = g.p1_kept
                        from rfl, hp1k] at hres
                  injection hres with hres
                  injection hres with hres1 hres2
                  exact .inl ⟨k1, rfl, hres1.symm, hres2.symm⟩
                | none =>
                  rw [show ({ g with p2_kept := some kv } : Game).p2_kept = some kv
                        from rfl,
                      show ({ g with p2_kept := some kv } : Game).p1_kept = g.p1_kept
                        from rfl, hp1k] at hres
                  injection hres with hres
                  injection hres with hres1 hres2
                  exact .inr ⟨rfl, hres1.symm, hres2.symm⟩
      next => exact absurd heq (by simp)
  next e heq => exact absurd hres (by simp)
  next heq => exact absurd hres (by simp)

/-! The reachable-state invariant and its preservation. -/

/-- Invariant of a session record reachable through the public operations:
each phase owns the data that the earlier phases established, the winner is
set exactly in the terminal phase, and a party's two revealed hands are set
together. -/
def Inv (g : Game) : Prop :=
  (2 ≤ g.phase → g.p1_commit.isSome ∧ g.p2_commit.isSome) ∧
  (3 ≤ g.phase →
    g.p1_left.isSome ∧ g.p1_right.isSome ∧ g.p2_left.isSome ∧ g.p2_right.isSome) ∧
  (4 ≤ g.phase → g.p1_choice_commit.isSome ∧ g.p2_choice_commit.isSome) ∧
  (g.phase = 5 → g.p1_kept.isSome ∧ g.p2_kept.isSome) ∧
  (g.winner.isSome ↔ g.phase = 5) ∧
  g.p1_left.isSome = g.p1_right.isSome ∧
  g.p2_left.isSome = g.p2_right.isSome

theorem start_game_inv {p1 p2 : Nat} {a b : Int} {g' : Game}
    (hres : start_game p1 p2 a b = .ok g') : Inv g' := by
  obtain ⟨-, rfl⟩ := start_game_ok hres
  simp [Inv]

theorem commit_hands_inv {g g' : Game} {p : Nat} {hsh : Digest} (hInv : Inv g)
    (hres : commit_hands (some g) p hsh = .ok g') : Inv g' := by
  obtain ⟨hphase, hcase⟩ := commit_hands_ok hres
  obtain ⟨hw1, hw2, hw3, hw4, hw5, hw6, hw7⟩ := hInv
  rcases hcase with ⟨hp, hc, rfl⟩ | ⟨hne, hp, hc, rfl⟩ <;> split <;>
    refine ⟨?_, ?_, ?_, ?_, ?_, ?_, ?_⟩ <;>
    simp_all [Inv]

theorem reveal_hands_inv {keccak : Bytes → Digest} {g g' : Game} {p l r : Nat}
    {salt : Bytes} (hInv : Inv g)
    (hres : reveal_hands keccak (some g) p l r salt = .ok g') : Inv g' := by
  obtain ⟨hphase, -, -, -, hcase⟩ := reveal_hands_ok hres
  obtain ⟨hw1, hw2, hw3, hw4, hw5, hw6, hw7⟩ := hInv
  rcases hcase with ⟨hp, hc, -, rfl⟩ | ⟨hne, hp, hc, -, rfl⟩ <;> split <;>
    refine ⟨?_, ?_, ?_, ?_, ?_, ?_, ?_⟩ <;>
    simp_all [Inv]

theorem commit_choice_inv {g g' : Game} {p : Nat} {hsh : Digest} (hInv : Inv g)
    (hres : commit_choice (some g) p hsh = .ok g') : Inv g' := by
  obtain ⟨hphase, hcase⟩ := commit_choice_ok hres
  obtain ⟨hw1, hw2, hw3, hw4, hw5, hw6, hw7⟩ := hInv
  rcases hcase with ⟨hp, hc, rfl⟩ | ⟨hne, hp, hc, rfl⟩ <;> split <;>
    refine ⟨?_, ?_, ?_, ?_, ?_, ?_, ?_⟩ <;>
    simp_all [Inv]

theorem reveal_choice_inv {keccak : Bytes → Digest} {g g' : Game}
    {ev : Option Bool} {p i : Nat} {salt : Bytes} (hInv : Inv g)
    (hres : reveal_choice keccak (some g) p i salt = .ok (g', ev)) : Inv g' := by
  obtain ⟨hphase, -, hcase⟩ := reveal_choice_ok hres
  obtain ⟨hw1, hw2, hw3, hw4, hw5, hw6, hw7⟩ := hInv
  rcases hcase with ⟨hp, hc, -, kv, hkv, hfin⟩ | ⟨hne, hp, hc, -, kv, hkv, hfin⟩ <;>
    rcases hfin with ⟨k2, hk2, rfl, -⟩ | ⟨hk2, rfl, -⟩ <;>
    refine ⟨?_, ?_, ?_, ?_, ?_, ?_, ?_⟩ <;>
    simp_all [Inv]

/-- Preservation of the invariant by a single public call. -/
theorem step_inv {keccak : Bytes → Digest} {store : Option Game} {c : Call}
    (h : ∀ g0, store = some g0 → Inv g0) :
    ∀ g', step keccak store c = some g' → Inv g' := by
  intro g' hstep
  cases c with
  | startGame p1 p2 a b =>
    cases hsr : start_game p1 p2 a b with
    | ok g0 =>
      simp only [step, applyOutcome, hsr] at hstep
      cases hstep
      exact start_game_inv hsr
    | err e => simp only [step, applyOutcome, hsr] at hstep; exact h g' hstep
    | panic => simp only [step, applyOutcome, hsr] at hstep; exact h g' hstep
  | commitHands p hsh =>
    cases hres : commit_hands store p hsh with
    | ok g2 =>
      simp only [step, applyOutcome, hres] at hstep
      cases hstep
      cases store with
      | none => simp [commit_hands] at hres
      | some g => exact commit_hands_inv (h g rfl) hres
    | err e => simp only [step, applyOutcome, hres] at hstep; exact h g' hstep
    | panic => simp only [step, applyOutcome, hres] at hstep; exact h g' hstep
  | revealHands p l r salt =>
    cases hres : reveal_hands keccak store p l r salt with
    | ok g2 =>
      simp only [step, applyOutcome, hres] at hstep
      cases hstep
      cases store with
      | none => simp [reveal_hands] at hres
      | some g => exact reveal_hands_inv (h g rfl) hres
    | err e => simp only [step, applyOutcome, hres] at hstep; exact h g' hstep
    | panic => simp only [step, applyOutcome, hres] at hstep; exact h g' hstep
  | commitChoice p hsh =>
    cases hres : commit_choice store p hsh with
    | ok g2 =>
      simp only [step, applyOutcome, hres] at hstep
      cases hstep
      cases store with
      | none => simp [commit_choice] at hres
      | some g => exact commit_choice_inv (h g rfl) hres
    | err e => simp only [step, applyOutcome, hres] at hstep; exact h g' hstep
    | panic => simp only [step, applyOutcome, hres] at hstep; exact h g' hstep
  | revealChoice p i salt =>
    cases hres : reveal_choice keccak store p i salt with
    | ok pr =>
      obtain ⟨g2, ev⟩ := pr
      simp only [step, hres] at hstep
      cases hstep
      cases store with
      | none => simp [reveal_choice] at hres
      | some g => exact reveal_choice_inv (h g rfl) hres
    | err e => simp only [step, hres] at hstep; exact h g' hstep
    | panic => simp only [step, hres] at hstep; exact h g' hstep
  | getGame => exact h g' hstep

/-- Every record reachable by a sequence of public calls satisfies `Inv`. -/
theorem run_inv {keccak : Bytes → Digest} {calls : List Call}
    {store : Option Game} {g : Game} (h : ∀ g0, store = some g0 → Inv g0)
    (hrun : run keccak store calls = some g) : Inv g := by
  induction calls generalizing store with
  | nil => exact h g hrun
  | cons c cs ih =>
    exact ih (fun g0 hg0 => step_inv h g0 hg0) hrun

/-- Every record reachable from empty storage satisfies `Inv`. -/
theorem reachable_inv {keccak : Bytes → Digest} {calls : List Call} {g : Game}
    (hrun : run keccak none calls = some g) : Inv g :=
  run_inv (fun _ h => by cases h) hrun

/-- On a record satisfying the invariant, the unwrap of the stored hands
commitment inside reveal_hands can never hit `None`: the call never traps. -/
theorem reveal_hands_no_panic {keccak : Bytes → Digest} {g : Game}
    {p l r : Nat} {salt : Bytes} (hInv : Inv g) :
    reveal_hands keccak (some g) p l r salt ≠ .panic := by
  intro hcontra
  simp only [reveal_hands] at hcontra
  split at hcontra
  next hphase => simp at hcontra
  next hphase =>
  split at hcontra
  next => simp at hcontra
  next hdom =>
  split at hcontra
  next => simp at hcontra
  next hlr =>
  split at hcontra
  next g2 heq => simp at hcontra
  next e heq => simp at hcontra
  next heq =>
  have hc := hInv.1 (by omega)
  split at heq
  next hp1 =>
    split at heq
    next => simp at heq
    next hrev =>
      split at heq
      next hcnone => simp [hcnone] at hc
      next c hcsome => split at heq <;> simp at heq
  next hp1 =>
    split at heq
    next hp2 =>
      split at heq
      next => simp at heq
      next hrev =>
        split at heq
        next hcnone => simp [hcnone] at hc
        next c hcsome => split at heq <;> simp at heq
    next => simp at heq

/-- On a record satisfying the invariant, the unwraps of the stored choice
commitment and of the revealed left/right hand inside reveal_choice can
never hit `None`: the call never traps. -/
theorem reveal_choice_no_panic {keccak : Bytes → Digest} {g : Game}
    {p i : Nat} {salt : Bytes} (hInv : Inv g) :
    reveal_choice keccak (some g) p i salt ≠ .panic := by
  intro hcontra
  simp only [reveal_choice] at hcontra
  split at hcontra
  next hphase => simp at hcontra
  next hphase =>
  split at hcontra
  next => simp at hcontra
  next hdom =>
  split at hcontra
  next g2 heq => split at hcontra <;> simp at hcontra
  next e heq => simp at hcontra
  next heq =>
  have hcc := hInv.2.2.1 (by omega)
  have hrev := hInv.2.1 (by omega)
  split at heq
  next hp1 =>
    split at heq
    next => simp at heq
    next hkept =>
      split at heq
      next hcnone => simp [hcnone] at hcc
      next c hcsome =>
        split at heq
        next => simp at heq
        next hhash =>
          split at heq
          next hkv =>
            split at hkv
            · simp [hkv] at hrev
            · simp [hkv] at hrev
          next kv hkv => simp at heq
  next hp1 =>
    split at heq
    next hp2 =>
      split at heq
      next => simp at heq
      next hkept =>
        split at heq
        next hcnone => simp [hcnone] at hcc
        next c hcsome =>
          split at heq
          next => simp at heq
          next hhash =>
            split at heq
            next hkv =>
              split at hkv
              · simp [hkv] at hrev
              · simp [hkv] at hrev
            next kv hkv => simp at heq
    next => simp at heq

/-! Concrete instantiations used by witnesses and counterexamples. -/

/-- A fixed 32-byte salt of zeroes. -/
def salt0 : Bytes := List.replicate 32 0

/-- Concrete hash instantiation for witnesses: the identity on byte lists.
Every verified property is uniform in the hash function, so any concrete
choice exercises the control flow. -/
def hashId : Bytes → Digest := fun pre => pre

/-- The record created by start_game for players 1 and 2 with zero points. -/
def G1 : Game :=
  { player1 := 1, player2 := 2, player1_points := 0, player2_points := 0
    phase := 1
    p1_commit := none, p2_commit := none
    p1_left := none, p1_right := none, p2_left := none, p2_right := none
    p1_choice_commit := none, p2_choice_commit := none
    p1_kept := none, p2_kept := none, winner := none }

/-- A phase-2 record: both parties committed hands (1 committed (0,1),
2 committed (0,2), both with the zero salt). -/
def G2 : Game :=
  { player1 := 1, player2 := 2, player1_points := 0, player2_points := 0
    phase := 2
    p1_commit := some (hash_hands hashId 0 1 salt0)
    p2_commit := some (hash_hands hashId 0 2 salt0)
    p1_left := none, p1_right := none, p2_left := none, p2_right := none
    p1_choice_commit := none, p2_choice_commit := none
    p1_kept := none, p2_kept := none, winner := none }

/-- A phase-4 record: hands revealed as (0,1) and (0,2), both choice
commitments made for index 0 with the zero salt, nothing yet revealed. -/
def G4 : Game :=
  { player1 := 1, player2 := 2, player1_points := 0, player2_points := 0
    phase := 4
    p1_commit := some (hash_hands hashId 0 1 salt0)
    p2_commit := some (hash_hands hashId 0 2 salt0)
    p1_left := some 0, p1_right := some 1, p2_left := some 0, p2_right := some 2
    p1_choice_commit := some (hash_choice hashId 0 salt0)
    p2_choice_commit := some (hash_choice hashId 0 salt0)
    p1_kept := none, p2_kept := none, winner := none }

/-! Claim theorems. -/

/-- C3: the outcome resolver is a total function on the 9 ordered pairs over
the set of three hand values: on the three exact ties it returns true (the
first party wins), and on the six non-tie pairs it follows the cyclic
dominance rule resolve(0,1)=false, resolve(0,2)=true, resolve(1,0)=true,
resolve(1,2)=false, resolve(2,0)=false, resolve(2,1)=true. -/
theorem C3_resolver_table :
    resolve 0 0 = true ∧ resolve 1 1 = true ∧ resolve 2 2 = true ∧
    resolve 0 1 = false ∧ resolve 0 2 = true ∧
    resolve 1 0 = true ∧ resolve 1 2 = false ∧
    resolve 2 0 = false ∧ resolve 2 1 = true := by
  decide

/-- C4: a call to commit_hands, reveal_hands, commit_choice or reveal_choice
that returns any error leaves the stored session record exactly as loaded:
nothing is persisted on a rejected call. -/
theorem C4_rejected_calls_atomic (keccak : Bytes → Digest) (store : Option Game)
    (p l r i : Nat) (hsh : Digest) (salt : Bytes) (e : Error) :
    (commit_hands store p hsh = .err e →
       step keccak store (.commitHands p hsh) = store) ∧
    (reveal_hands keccak store p l r salt = .err e →
       step keccak store (.revealHands p l r salt) = store) ∧
    (commit_choice store p hsh = .err e →
       step keccak store (.commitChoice p hsh) = store) ∧
    (reveal_choice keccak store p i salt = .err e →
       step keccak store (.revealChoice p i salt) = store) := by
  refine ⟨?_, ?_, ?_, ?_⟩ <;> intro h <;> simp [step, applyOutcome, h]

/-- C4 witness: a commit against an unknown session errors and persists
nothing. -/
theorem C4_rejected_calls_atomic_witness :
    step hashId none (.commitHands 1 []) = none :=
  (C4_rejected_calls_atomic hashId none 1 0 0 0 [] [] .GameNotFound).1 rfl

/-- C8: in phase RevealHands, for every caller and salt, equal hands from
the 3-valued domain are rejected with HandsMustDiffer and out-of-domain
values with InvalidHand, in both cases independently of the hash function,
the supplied salt and the stored commitments. -/
theorem C8_hands_validation (keccak : Bytes → Digest) (g : Game)
    (p l r : Nat) (salt : Bytes) (hphase : g.phase = 2) :
    (l ≤ 2 → r ≤ 2 → l = r →
       reveal_hands keccak (some g) p l r salt = .err .HandsMustDiffer) ∧
    (l > 2 ∨ r > 2 →
       reveal_hands keccak (some g) p l r salt = .err .InvalidHand) := by
  constructor
  · intro hl hr hlr
    have hdom : ¬(l > 2 ∨ r > 2) := by omega
    simp [reveal_hands, hphase, hdom, hlr]
    omega
  · intro hdom
    simp [reveal_hands, hphase, hdom]

/-- C8 witness: player 1 revealing the equal pair (0,0) on a phase-2 record
is rejected with HandsMustDiffer even though no hash could ever match. -/
theorem C8_hands_validation_witness :
    reveal_hands hashId (some G2) 1 0 0 salt0 = .err .HandsMustDiffer :=
  (C8_hands_validation hashId G2 1 0 0 salt0 rfl).1 (by decide) (by decide) rfl

/-- C1: reveal_hands recomputes the digest over the exact preimage
left(1 byte) ++ right(1 byte) ++ salt(32 bytes), and reveal_choice over
choiceIndex(1 byte) ++ salt(32 bytes); once the earlier phase, domain and
duplicate checks pass, a recomputed digest differing from that party's
stored commitment fails the call with HashMismatch and leaves the record
(hence the party's unset reveal fields) unchanged, while an equal digest
makes the reveal succeed. -/
theorem C1_hash_verification (keccak : Bytes → Digest) (g : Game)
    (p l r i : Nat) (salt : Bytes) (c : Digest) (_hsalt : salt.length = 32) :
    (g.phase = 2 → l ≤ 2 → r ≤ 2 → l ≠ r →
      ((p = g.player1 → g.p1_left = none → g.p1_commit = some c →
         (keccak (l :: r :: salt) ≠ c →
            reveal_hands keccak (some g) p l r salt = .err .HashMismatch ∧
            step keccak (some g) (.revealHands p l r salt) = some g) ∧
         (keccak (l :: r :: salt) = c →
            ∃ g', reveal_hands keccak (some g) p l r salt = .ok g' ∧
              g'.p1_left = some l ∧ g'.p1_right = some r)) ∧
       (p ≠ g.player1 → p = g.player2 → g.p2_left = none → g.p2_commit = some c →
         (keccak (l :: r :: salt) ≠ c →
            reveal_hands keccak (some g) p l r salt = .err .HashMismatch ∧
            step keccak (some g) (.revealHands p l r salt) = some g) ∧
         (keccak (l :: r :: salt) = c →
            ∃ g', reveal_hands keccak (some g) p l r salt = .ok g' ∧
              g'.p2_left = some l ∧ g'.p2_right = some r)))) ∧
    (g.phase = 4 → i ≤ 1 →
      ((p = g.player1 → g.p1_kept = none → g.p1_choice_commit = some c →
          g.p1_left.isSome → g.p1_right.isSome →
         (keccak (i :: salt) ≠ c →
            reveal_choice keccak (some g) p i salt = .err .HashMismatch ∧
            step keccak (some g) (.revealChoice p i salt) = some g) ∧
         (keccak (i :: salt) = c →
            ∃ g' ev, reveal_choice keccak (some g) p i salt = .ok (g', ev) ∧
              g'.p1_kept.isSome)) ∧
       (p ≠ g.player1 → p = g.player2 → g.p2_kept = none →
          g.p2_choice_commit = some c → g.p2_left.isSome → g.p2_right.isSome →
         (keccak (i :: salt) ≠ c →
            reveal_choice keccak (some g) p i salt = .err .HashMismatch ∧
            step keccak (some g) (.revealChoice p i salt) = some g) ∧
         (keccak (i :: salt) = c →
            ∃ g' ev, reveal_choice keccak (some g) p i salt = .ok (g', ev) ∧
              g'.p2_kept.isSome)))) := by
  constructor
  · intro hphase hl hr hlr
    have hdom : ¬(l > 2 ∨ r > 2) := by omega
    have hml : l % 256 = l := Nat.mod_eq_of_lt (by omega)
    have hmr : r % 256 = r := Nat.mod_eq_of_lt (by omega)
    constructor
    · intro hp hnone hcom
      subst hp
      constructor
      · intro hmis
        have hrh : reveal_hands keccak (some g) g.player1 l r salt =
            .err .HashMismatch := by
          simp [reveal_hands, hphase, hdom, hlr, hnone, hcom, hash_hands,
            hml, hmr, hmis]
        exact ⟨hrh, by simp [step, applyOutcome, hrh]⟩
      · intro hmatch
        cases hq : g.p2_left with
        | some v =>
          refine ⟨{ g with p1_left := some l, p1_right := some r, phase := 3 },
            ?_, rfl, rfl⟩
          simp [reveal_hands, hphase, hdom, hlr, hnone, hcom, hash_hands,
            hml, hmr, hmatch, hq]
        | none =>
          refine ⟨{ g with p1_left := some l, p1_right := some r }, ?_, rfl, rfl⟩
          simp [reveal_hands, hphase, hdom, hlr, hnone, hcom, hash_hands,
            hml, hmr, hmatch, hq]
    · intro hp1 hp2 hnone hcom
      subst hp2
      constructor
      · intro hmis
        have hrh : reveal_hands keccak (some g) g.player2 l r salt =
            .err .HashMismatch := by
          simp [reveal_hands, hphase, hdom, hlr, hp1, hnone, hcom, hash_hands,
            hml, hmr, hmis]
        exact ⟨hrh, by simp [step, applyOutcome, hrh]⟩
      · intro hmatch
        cases hq : g.p1_left with
        | some v =>
          refine ⟨{ g with p2_left := some l, p2_right := some r, phase := 3 },
            ?_, rfl, rfl⟩
          simp [reveal_hands, hphase, hdom, hlr, hp1, hnone, hcom, hash_hands,
            hml, hmr, hmatch, hq]
        | none =>
          refine ⟨{ g with p2_left := some l, p2_right := some r }, ?_, rfl, rfl⟩
          simp [reveal_hands, hphase, hdom, hlr, hp1, hnone, hcom, hash_hands,
            hml, hmr, hmatch, hq]
  · intro hphase hi
    have hdom : ¬(i > 1) := by omega
    have him : i % 256 = i := Nat.mod_eq_of_lt (by omega)
    constructor
    · intro hp hknone hcc hlsome hrsome
      subst hp
      constructor
      · intro hmis
        have hrc : reveal_choice keccak (some g) g.player1 i salt =
            .err .HashMismatch := by
          simp [reveal_choice, hphase, hdom, hknone, hcc, hash_choice, him, hmis]
        exact ⟨hrc, by simp [step, hrc]⟩
      · intro hmatch
        obtain ⟨lv, hlv⟩ := Option.isSome_iff_exists.mp hlsome
        obtain ⟨rv, hrv⟩ := Option.isSome_iff_exists.mp hrsome
        have hkv : ∃ kv, (if i = 0 then g.p1_left else g.p1_right) = some kv := by
          by_cases hi0 : i = 0 <;> simp [hi0, hlv, hrv]
        obtain ⟨kv, hkv⟩ := hkv
        cases hk2 : g.p2_kept with
        | none =>
          exact ⟨{ g with p1_kept := some kv }, none,
            by simp [reveal_choice, hphase, hdom, hknone, hcc, hash_choice,
              him, hmatch, hkv, hk2], rfl⟩
        | some k2 =>
          exact ⟨{ g with
                    p1_kept := some kv,
                    winner := some (if resolve kv k2 then g.player1 else g.player2),
                    phase := 5 }, some (resolve kv k2),
            by simp [reveal_choice, hphase, hdom, hknone, hcc, hash_choice,
              him, hmatch, hkv, hk2], rfl⟩
    · intro hp1 hp2 hknone hcc hlsome hrsome
      subst hp2
      constructor
      · intro hmis
        have hrc : reveal_choice keccak (some g) g.player2 i salt =
            .err .HashMismatch := by
          simp [reveal_choice, hphase, hdom, hp1, hknone, hcc, hash_choice,
            him, hmis]
        exact ⟨hrc, by simp [step, hrc]⟩
      · intro hmatch
        obtain ⟨lv, hlv⟩ := Option.isSome_iff_exists.mp hlsome
        obtain ⟨rv, hrv⟩ := Option.isSome_iff_exists.mp hrsome
        have hkv : ∃ kv, (if i = 0 then g.p2_left else g.p2_right) = some kv := by
          by_cases hi0 : i = 0 <;> simp [hi0, hlv, hrv]
        obtain ⟨kv, hkv⟩ := hkv
        cases hk1 : g.p1_kept with
        | none =>
          exact ⟨{ g with p2_kept := some kv }, none,
            by simp [reveal_choice, hphase, hdom, hp1, hknone, hcc, hash_choice,
              him, hmatch, hkv, hk1], rfl⟩
        | some k1 =>
          exact ⟨{ g with
                    p2_kept := some kv,
                    winner := some (if resolve k1 kv then g.player1 else g.player2),
                    phase := 5 }, some (resolve k1 kv),
            by simp [reveal_choice, hphase, hdom, hp1, hknone, hcc, hash_choice,
              him, hmatch, hkv, hk1], rfl⟩

/-- C1 witness: on the phase-2 record G2, player 1 revealing the committed
hands (0,1) with the committed salt succeeds and stores both hands. -/
theorem C1_hash_verification_witness :
    ∃ g', reveal_hands hashId (some G2) 1 0 1 salt0 = .ok g' ∧
      g'.p1_left = some 0 ∧ g'.p1_right = some 1 :=
  (((C1_hash_verification hashId G2 1 0 1 0 salt0 (hash_hands hashId 0 1 salt0)
      (by decide)).1 rfl (by decide) (by decide) (by decide)).1 rfl rfl rfl).2 rfl

/-- C6 counterexample: after the trace below, player 1 has already revealed
and the phase has not advanced (player 2 has not acted); player 1's second
reveal, submitted with the equal pair (0,0), is rejected with
HandsMustDiffer — a ValidationFailure — and not with the AlreadyCommitted
error the claim promises for every second submission: the stateless
argument checks run before the duplicate check. -/
theorem C6_counterexample :
    reveal_hands hashId
      (run hashId none
        [.startGame 1 2 0 0,
         .commitHands 1 (hash_hands hashId 0 1 salt0),
         .commitHands 2 (hash_hands hashId 0 2 salt0),
         .revealHands 1 0 1 salt0])
      1 0 0 salt0 = .err .HandsMustDiffer ∧
    Error.HandsMustDiffer ≠ Error.AlreadyCommitted :=
  ⟨rfl, by decide⟩

/-- C6 (amended): a second commit or reveal by the same party, made before
the other party acts, fails with AlreadyCommitted whenever the resubmitted
arguments pass the operation's stateless validation (hands in the 3-valued
domain and differing; choice index 0 or 1 — a resubmission failing those
checks is rejected by them first, with a ValidationFailure error), and in
either case the stored record, including all previously stored data for
that party, is unchanged. -/
theorem C6_duplicate_submission (keccak : Bytes → Digest) (g : Game)
    (p l r i : Nat) (hsh : Digest) (salt : Bytes) :
    ((g.phase = 1 → p = g.player1 → g.p1_commit.isSome →
        commit_hands (some g) p hsh = .err .AlreadyCommitted ∧
        step keccak (some g) (.commitHands p hsh) = some g) ∧
     (g.phase = 1 → p ≠ g.player1 → p = g.player2 → g.p2_commit.isSome →
        commit_hands (some g) p hsh = .err .AlreadyCommitted ∧
        step keccak (some g) (.commitHands p hsh) = some g)) ∧
    ((g.phase = 2 → l ≤ 2 → r ≤ 2 → l ≠ r → p = g.player1 → g.p1_left.isSome →
        reveal_hands keccak (some g) p l r salt = .err .AlreadyCommitted ∧
        step keccak (some g) (.revealHands p l r salt) = some g) ∧
     (g.phase = 2 → l ≤ 2 → r ≤ 2 → l ≠ r → p ≠ g.player1 → p = g.player2 →
        g.p2_left.isSome →
        reveal_hands keccak (some g) p l r salt = .err .AlreadyCommitted ∧
        step keccak (some g) (.revealHands p l r salt) = some g)) ∧
    ((g.phase = 3 → p = g.player1 → g.p1_choice_commit.isSome →
        commit_choice (some g) p hsh = .err .AlreadyCommitted ∧
        step keccak (some g) (.commitChoice p hsh) = some g) ∧
     (g.phase = 3 → p ≠ g.player1 → p = g.player2 → g.p2_choice_commit.isSome →
        commit_choice (some g) p hsh = .err .AlreadyCommitted ∧
        step keccak (some g) (.commitChoice p hsh) = some g)) ∧
    ((g.phase = 4 → i ≤ 1 → p = g.player1 → g.p1_kept.isSome →
        reveal_choice keccak (some g) p i salt = .err .AlreadyCommitted ∧
        step keccak (some g) (.revealChoice p i salt) = some g) ∧
     (g.phase = 4 → i ≤ 1 → p ≠ g.player1 → p = g.player2 → g.p2_kept.isSome →
        reveal_choice keccak (some g) p i salt = .err .AlreadyCommitted ∧
        step keccak (some g) (.revealChoice p i salt) = some g)) := by
  refine ⟨⟨?_, ?_⟩, ⟨?_, ?_⟩, ⟨?_, ?_⟩, ⟨?_, ?_⟩⟩
  · intro hphase hp hdup
    subst hp
    have h : commit_hands (some g) g.player1 hsh = .err .AlreadyCommitted := by
      simp [commit_hands, hphase, hdup]
    exact ⟨h, by simp [step, applyOutcome, h]⟩
  · intro hphase hp1 hp2 hdup
    subst hp2
    have h : commit_hands (some g) g.player2 hsh = .err .AlreadyCommitted := by
      simp [commit_hands, hphase, hp1, hdup]
    exact ⟨h, by simp [step, applyOutcome, h]⟩
  · intro hphase hl hr hlr hp hdup
    subst hp
    have hdomn : ¬(l > 2 ∨ r > 2) := by omega
    have h : reveal_hands keccak (some g) g.player1 l r salt =
        .err .AlreadyCommitted := by
      simp [reveal_hands, hphase, hdomn, hlr, hdup]
    exact ⟨h, by simp [step, applyOutcome, h]⟩
  · intro hphase hl hr hlr hp1 hp2 hdup
    subst hp2
    have hdomn : ¬(l > 2 ∨ r > 2) := by omega
    have h : reveal_hands keccak (some g) g.player2 l r salt =
        .err .AlreadyCommitted := by
      simp [reveal_hands, hphase, hdomn, hlr, hp1, hdup]
    exact ⟨h, by simp [step, applyOutcome, h]⟩
  · intro hphase hp hdup
    subst hp
    have h : commit_choice (some g) g.player1 hsh = .err .AlreadyCommitted := by
      simp [commit_choice, hphase, hdup]
    exact ⟨h, by simp [step, applyOutcome, h]⟩
  · intro hphase hp1 hp2 hdup
    subst hp2
    have h : commit_choice (some g) g.player2 hsh = .err .AlreadyCommitted := by
      simp [commit_choice, hphase, hp1, hdup]
    exact ⟨h, by simp [step, applyOutcome, h]⟩
  · intro hphase hi hp hdup
    subst hp
    have hdomn : ¬(i > 1) := by omega
    have h : reveal_choice keccak (some g) g.player1 i salt =
        .err .AlreadyCommitted := by
      simp [reveal_choice, hphase, hdomn, hdup]
    exact ⟨h, by simp [step, h]⟩
  · intro hphase hi hp1 hp2 hdup
    subst hp2
    have hdomn : ¬(i > 1) := by omega
    have h : reveal_choice keccak (some g) g.player2 i salt =
        .err .AlreadyCommitted := by
      simp [reveal_choice, hphase, hdomn, hp1, hdup]
    exact ⟨h, by simp [step, h]⟩

/-- C6 witness: on a phase-1 record where player 1 already committed, a
second commit by player 1 fails with AlreadyCommitted and the record is
unchanged. -/
theorem C6_duplicate_submission_witness :
    commit_hands (some { G1 with p1_commit := some (hash_hands hashId 0 1 salt0) })
      1 [] = .err .AlreadyCommitted ∧
    step hashId (some { G1 with p1_commit := some (hash_hands hashId 0 1 salt0) })
      (.commitHands 1 []) =
      some { G1 with p1_commit := some (hash_hands hashId 0 1 salt0) } :=
  (C6_duplicate_submission hashId
      { G1 with p1_commit := some (hash_hands hashId 0 1 salt0) }
      1 0 1 0 [] salt0).1.1 rfl rfl rfl

/-- C9 counterexample: on a stored phase-1 session, a third identity (3)
calling reveal_hands is rejected with WrongPhase, not with the NotPlayer
error the claim promises for every operation; and get_game performs no
identity check at all, so it succeeds rather than yield NotPlayer. -/
theorem C9_counterexample :
    reveal_hands hashId (some G1) 3 0 1 salt0 = .err .WrongPhase ∧
    Error.WrongPhase ≠ Error.NotPlayer ∧
    get_game (some G1) = .ok G1 :=
  ⟨rfl, by decide, rfl⟩

/-- C9 (amended): an unknown session identifier yields GameNotFound on all
five operations; for a stored session, a third identity that is neither
player calling commit_hands, reveal_hands, commit_choice or reveal_choice
in that operation's phase, with arguments passing the stateless validation,
yields NotPlayer (outside the phase the call fails with WrongPhase first,
and get_game performs no identity check). -/
theorem C9_notfound_and_identity (keccak : Bytes → Digest) (g : Game)
    (p l r i : Nat) (hsh : Digest) (salt : Bytes)
    (hp1 : p ≠ g.player1) (hp2 : p ≠ g.player2) :
    commit_hands none p hsh = .err .GameNotFound ∧
    reveal_hands keccak none p l r salt = .err .GameNotFound ∧
    commit_choice none p hsh = .err .GameNotFound ∧
    reveal_choice keccak none p i salt = .err .GameNotFound ∧
    get_game none = .err .GameNotFound ∧
    (g.phase = 1 → commit_hands (some g) p hsh = .err .NotPlayer) ∧
    (g.phase = 2 → l ≤ 2 → r ≤ 2 → l ≠ r →
       reveal_hands keccak (some g) p l r salt = .err .NotPlayer) ∧
    (g.phase = 3 → commit_choice (some g) p hsh = .err .NotPlayer) ∧
    (g.phase = 4 → i ≤ 1 →
       reveal_choice keccak (some g) p i salt = .err .NotPlayer) := by
  refine ⟨rfl, rfl, rfl, rfl, rfl, ?_, ?_, ?_, ?_⟩
  · intro hphase
    simp [commit_hands, hphase, hp1, hp2]
  · intro hphase hl hr hlr
    have hdomn : ¬(l > 2 ∨ r > 2) := by omega
    simp [reveal_hands, hphase, hdomn, hlr, hp1, hp2]
  · intro hphase
    simp [commit_choice, hphase, hp1, hp2]
  · intro hphase hi
    have hdomn : ¬(i > 1) := by omega
    simp [reveal_choice, hphase, hdomn, hp1, hp2]

/-- C9 witness: identity 3 calling commit_hands on the stored phase-1
record G1 is rejected with NotPlayer; an unknown session yields
GameNotFound. -/
theorem C9_notfound_and_identity_witness :
    commit_hands none 3 [] = .err .GameNotFound ∧
    commit_hands (some G1) 3 [] = .err .NotPlayer :=
  ⟨(C9_notfound_and_identity hashId G1 3 0 1 0 [] salt0 (by decide) (by decide)).1,
   (C9_notfound_and_identity hashId G1 3 0 1 0 [] salt0 (by decide)
      (by decide)).2.2.2.2.2.1 rfl⟩

/-- C2 counterexample: start_game never checks for an existing record, so
re-running it overwrites the stored session: after the three-call trace the
stored phase is 2, and one further public call (a second start_game for the
same session) makes the stored phase 1 — the phase decreased across a
sequence of calls to the public operations. -/
theorem C2_counterexample :
    (run hashId none
      [.startGame 1 2 0 0,
       .commitHands 1 (hash_hands hashId 0 1 salt0),
       .commitHands 2 (hash_hands hashId 0 2 salt0)]).map Game.phase = some 2 ∧
    (run hashId none
      [.startGame 1 2 0 0,
       .commitHands 1 (hash_hands hashId 0 1 salt0),
       .commitHands 2 (hash_hands hashId 0 2 salt0),
       .startGame 1 2 0 0]).map Game.phase = some 1 :=
  ⟨rfl, rfl⟩

/-- C2 (amended): excepting start_game — which overwrites the record with a
fresh phase-1 record — every public call on a reachable record leaves the
phase unchanged or advances it by exactly one step, and an advance happens
only when the data required by the current phase exists for both parties
(both commits for 1→2, all four revealed hands for 2→3, both choice
commitments for 3→4, both kept values for 4→5). -/
theorem C2_phase_monotone (keccak : Bytes → Digest) (calls : List Call)
    (g g' : Game) (c : Call) (hreach : run keccak none calls = some g)
    (hc : c.isStart = false) (hstep : step keccak (some g) c = some g') :
    g.phase ≤ g'.phase ∧ g'.phase ≤ g.phase + 1 ∧
    (g'.phase = g.phase + 1 →
      (g.phase = 1 ∧ g'.p1_commit.isSome ∧ g'.p2_commit.isSome) ∨
      (g.phase = 2 ∧ g'.p1_left.isSome ∧ g'.p1_right.isSome ∧
         g'.p2_left.isSome ∧ g'.p2_right.isSome) ∨
      (g.phase = 3 ∧ g'.p1_choice_commit.isSome ∧ g'.p2_choice_commit.isSome) ∨
      (g.phase = 4 ∧ g'.p1_kept.isSome ∧ g'.p2_kept.isSome)) := by
  obtain ⟨hw1, hw2, hw3, hw4, hw5, hw6, hw7⟩ := reachable_inv hreach
  cases c with
  | startGame p1 p2 a b => simp [Call.isStart] at hc
  | getGame =>
    simp only [step] at hstep
    injection hstep with h
    subst h
    exact ⟨le_refl _, by omega, by omega⟩
  | commitHands p hsh =>
    cases hres : commit_hands (some g) p hsh with
    | ok g2 =>
      simp only [step, applyOutcome, hres] at hstep
      injection hstep with h
      subst h
      obtain ⟨hphase, hcase⟩ := commit_hands_ok hres
      rcases hcase with ⟨hp, hcnone, rfl⟩ | ⟨hp1, hp2, hcnone, rfl⟩ <;> split <;>
        refine ⟨?_, ?_, ?_⟩ <;> simp_all
    | err e =>
      simp only [step, applyOutcome, hres] at hstep
      injection hstep with h
      subst h
      exact ⟨le_refl _, by omega, by omega⟩
    | panic =>
      simp only [step, applyOutcome, hres] at hstep
      injection hstep with h
      subst h
      exact ⟨le_refl _, by omega, by omega⟩
  | revealHands p l r salt =>
    cases hres : reveal_hands keccak (some g) p l r salt with
    | ok g2 =>
      simp only [step, applyOutcome, hres] at hstep
      injection hstep with h
      subst h
      obtain ⟨hphase, -, -, -, hcase⟩ := reveal_hands_ok hres
      rcases hcase with ⟨hp, hcnone, -, rfl⟩ | ⟨hp1, hp2, hcnone, -, rfl⟩ <;>
        split <;> refine ⟨?_, ?_, ?_⟩ <;> simp_all
    | err e =>
      simp only [step, applyOutcome, hres] at hstep
      injection hstep with h
      subst h
      exact ⟨le_refl _, by omega, by omega⟩
    | panic =>
      simp only [step, applyOutcome, hres] at hstep
      injection hstep with h
      subst h
      exact ⟨le_refl _, by omega, by omega⟩
  | commitChoice p hsh =>
    cases hres : commit_choice (some g) p hsh with
    | ok g2 =>
      simp only [step, applyOutcome, hres] at hstep
      injection hstep with h
      subst h
      obtain ⟨hphase, hcase⟩ := commit_choice_ok hres
      rcases hcase with ⟨hp, hcnone, rfl⟩ | ⟨hp1, hp2, hcnone, rfl⟩ <;> split <;>
        refine ⟨?_, ?_, ?_⟩ <;> simp_all
    | err e =>
      simp only [step, applyOutcome, hres] at hstep
      injection hstep with h
      subst h
      exact ⟨le_refl _, by omega, by omega⟩
    | panic =>
      simp only [step, applyOutcome, hres] at hstep
      injection hstep with h
      subst h
      exact ⟨le_refl _, by omega, by omega⟩
  | revealChoice p i salt =>
    cases hres : reveal_choice keccak (some g) p i salt with
    | ok pr =>
      obtain ⟨g2, ev⟩ := pr
      simp only [step, hres] at hstep
      injection hstep with h
      subst h
      obtain ⟨hphase, -, hcase⟩ := reveal_choice_ok hres
      rcases hcase with ⟨hp, hkn, -, kv, hkv, hfin⟩ | ⟨hp1, hp2, hkn, -, kv, hkv, hfin⟩ <;>
        rcases hfin with ⟨k2, hk2, rfl, -⟩ | ⟨hk2, rfl, -⟩ <;>
        refine ⟨?_, ?_, ?_⟩ <;> simp_all
    | err e =>
      simp only [step, hres] at hstep
      injection hstep with h
      subst h
      exact ⟨le_refl _, by omega, by omega⟩
    | panic =>
      simp only [step, hres] at hstep
      injection hstep with h
      subst h
      exact ⟨le_refl _, by omega, by omega⟩

/-- C2 witness: on the reachable fresh record G1, player 1's first commit
keeps the phase at 1 (no advance without player 2's commit). -/
theorem C2_phase_monotone_witness :
    G1.phase ≤ ({ G1 with p1_commit := some ([] : Digest) } : Game).phase :=
  (C2_phase_monotone hashId [.startGame 1 2 0 0] G1
      { G1 with p1_commit := some ([] : Digest) } (.commitHands 1 [])
      rfl rfl rfl).1

/-- First half of the C5 counterexample trace: a full game in which both
parties keep value 0, so the tie-break sets winner to player 1. -/
def traceWinner1 : List Call :=
  [.startGame 1 2 0 0,
   .commitHands 1 (hash_hands hashId 0 1 salt0),
   .commitHands 2 (hash_hands hashId 0 2 salt0),
   .revealHands 1 0 1 salt0,
   .revealHands 2 0 2 salt0,
   .commitChoice 1 (hash_choice hashId 0 salt0),
   .commitChoice 2 (hash_choice hashId 0 salt0),
   .revealChoice 1 0 salt0,
   .revealChoice 2 0 salt0]

/-- Second half of the C5 counterexample trace: a restart of the same
session followed by a replay in which player 2 keeps 1 against player 1's 0,
so the winner is player 2. -/
def traceWinner2 : List Call :=
  [.startGame 1 2 0 0,
   .commitHands 1 (hash_hands hashId 0 1 salt0),
   .commitHands 2 (hash_hands hashId 1 2 salt0),
   .revealHands 1 0 1 salt0,
   .revealHands 2 1 2 salt0,
   .commitChoice 1 (hash_choice hashId 0 salt0),
   .commitChoice 2 (hash_choice hashId 0 salt0),
   .revealChoice 1 0 salt0,
   .revealChoice 2 0 salt0]

/-- C5 counterexample: along one sequence of public calls on one session the
winner field is set twice, to two different identities — after the first
complete game the stored winner is player 1, and after a start_game rerun
and a replay the stored winner is player 2.  The winner is not set exactly
once over the session record's lifetime, because start_game overwrites the
record, resetting the winner. -/
theorem C5_counterexample :
    (run hashId none traceWinner1).map Game.winner = some (some 1) ∧
    (run hashId none (traceWinner1 ++ traceWinner2)).map Game.winner =
      some (some 2) :=
  ⟨rfl, rfl⟩

/-- C5 (amended): on every reachable record the winner is set if and only
if the phase is Complete (5); and — excepting start_game, which replaces
the record by a fresh one with no winner — no public call changes a set
winner, and a call that sets the winner is a reveal_choice that in the same
call sets phase 5 with both kept values present. -/
theorem C5_winner_iff_complete (keccak : Bytes → Digest) (calls : List Call)
    (g g' : Game) (c : Call) (hreach : run keccak none calls = some g)
    (hc : c.isStart = false) (hstep : step keccak (some g) c = some g') :
    (g.winner.isSome ↔ g.phase = 5) ∧
    (∀ w, g.winner = some w → g'.winner = some w) ∧
    (g.winner = none → g'.winner ≠ none →
       g'.phase = 5 ∧ g'.p1_kept.isSome ∧ g'.p2_kept.isSome ∧
       ∃ q j salt2, c = .revealChoice q j salt2) := by
  obtain ⟨hw1, hw2, hw3, hw4, hw5, hw6, hw7⟩ := reachable_inv hreach
  refine ⟨hw5, ?_⟩
  cases c with
  | startGame p1 p2 a b => simp [Call.isStart] at hc
  | getGame =>
    simp only [step] at hstep
    injection hstep with h
    subst h
    exact ⟨fun w hw => hw, fun hn hs => absurd hn hs⟩
  | commitHands p hsh =>
    cases hres : commit_hands (some g) p hsh with
    | ok g2 =>
      simp only [step, applyOutcome, hres] at hstep
      injection hstep with h
      subst h
      obtain ⟨hphase, hcase⟩ := commit_hands_ok hres
      rcases hcase with ⟨hp, hcnone, rfl⟩ | ⟨hp1, hp2, hcnone, rfl⟩ <;> split <;>
        exact ⟨fun w hw => hw, fun hn hs => absurd hn hs⟩
    | err e =>
      simp only [step, applyOutcome, hres] at hstep
      injection hstep with h
      subst h
      exact ⟨fun w hw => hw, fun hn hs => absurd hn hs⟩
    | panic =>
      simp only [step, applyOutcome, hres] at hstep
      injection hstep with h
      subst h
      exact ⟨fun w hw => hw, fun hn hs => absurd hn hs⟩
  | revealHands p l r salt =>
    cases hres : reveal_hands keccak (some g) p l r salt with
    | ok g2 =>
      simp only [step, applyOutcome, hres] at hstep
      injection hstep with h
      subst h
      obtain ⟨hphase, -, -, -, hcase⟩ := reveal_hands_ok hres
      rcases hcase with ⟨hp, hcnone, -, rfl⟩ | ⟨hp1, hp2, hcnone, -, rfl⟩ <;>
        split <;> exact ⟨fun w hw => hw, fun hn hs => absurd hn hs⟩
    | err e =>
      simp only [step, applyOutcome, hres] at hstep
      injection hstep with h
      subst h
      exact ⟨fun w hw => hw, fun hn hs => absurd hn hs⟩
    | panic =>
      simp only [step, applyOutcome, hres] at hstep
      injection hstep with h
      subst h
      exact ⟨fun w hw => hw, fun hn hs => absurd hn hs⟩
  | commitChoice p hsh =>
    cases hres : commit_choice (some g) p hsh with
    | ok g2 =>
      simp only [step, applyOutcome, hres] at hstep
      injection hstep with h
      subst h
      obtain ⟨hphase, hcase⟩ := commit_choice_ok hres
      rcases hcase with ⟨hp, hcnone, rfl⟩ | ⟨hp1, hp2, hcnone, rfl⟩ <;> split <;>
        exact ⟨fun w hw => hw, fun hn hs => absurd hn hs⟩
    | err e =>
      simp only [step, applyOutcome, hres] at hstep
      injection hstep with h
      subst h
      exact ⟨fun w hw => hw, fun hn hs => absurd hn hs⟩
    | panic =>
      simp only [step, applyOutcome, hres] at hstep
      injection hstep with h
      subst h
      exact ⟨fun w hw => hw, fun hn hs => absurd hn hs⟩
  | revealChoice p i salt =>
    cases hres : reveal_choice keccak (some g) p i salt with
    | ok pr =>
      obtain ⟨g2, ev⟩ := pr
      simp only [step, hres] at hstep
      injection hstep with h
      subst h
      obtain ⟨hphase, -, hcase⟩ := reveal_choice_ok hres
      have hwnone : g.winner = none := by
        cases hwv : g.winner with
        | none => rfl
        | some w => rw [hwv] at hw5; simp at hw5; omega
      rcases hcase with ⟨hp, hkn, -, kv, hkv, hfin⟩ |
          ⟨hp1, hp2, hkn, -, kv, hkv, hfin⟩ <;>
        rcases hfin with ⟨k2, hk2, rfl, -⟩ | ⟨hk2, rfl, -⟩ <;>
        refine ⟨fun w hw => absurd (hwnone ▸ hw) (by simp), fun hn hs => ?_⟩ <;>
        simp_all
    | err e =>
      simp only [step, hres] at hstep
      injection hstep with h
      subst h
      exact ⟨fun w hw => hw, fun hn hs => absurd hn hs⟩
    | panic =>
      simp only [step, hres] at hstep
      injection hstep with h
      subst h
      exact ⟨fun w hw => hw, fun hn hs => absurd hn hs⟩

/-- C5 witness: the fresh reachable record G1 has no winner and is not in
phase 5, and the getGame step preserves that. -/
theorem C5_winner_iff_complete_witness :
    G1.winner.isSome ↔ G1.phase = 5 :=
  (C5_winner_iff_complete hashId [.startGame 1 2 0 0] G1 G1 .getGame
      rfl rfl rfl).1

/-- C7: a successful reveal_choice stores, as the caller's kept value, the
stored left hand for choice index 0 and the stored right hand for index 1;
and when the call makes both kept values set it stores the resolver's
winner, sets the phase to Complete (5), and notifies the Game Hub (end_game)
with the boolean result in that same call. -/
theorem C7_choice_selection (keccak : Bytes → Digest) (g g' : Game)
    (ev : Option Bool) (p i : Nat) (salt : Bytes)
    (hres : reveal_choice keccak (some g) p i salt = .ok (g', ev)) :
    (p = g.player1 →
       (i = 0 → g'.p1_kept = g.p1_left) ∧ (i = 1 → g'.p1_kept = g.p1_right)) ∧
    ((p ≠ g.player1 ∧ p = g.player2) →
       (i = 0 → g'.p2_kept = g.p2_left) ∧ (i = 1 → g'.p2_kept = g.p2_right)) ∧
    (∀ k1 k2, g'.p1_kept = some k1 → g'.p2_kept = some k2 →
       g'.winner = some (if resolve k1 k2 then g.player1 else g.player2) ∧
       g'.phase = 5 ∧ ev = some (resolve k1 k2)) := by
  obtain ⟨hphase, hi, hcase⟩ := reveal_choice_ok hres
  rcases hcase with ⟨hp, hkn, -, kv, hkv, hfin⟩ |
      ⟨hp1, hp2, hkn, -, kv, hkv, hfin⟩ <;>
    rcases hfin with ⟨k2, hk2, rfl, rfl⟩ | ⟨hk2, rfl, rfl⟩ <;>
    refine ⟨?_, ?_, ?_⟩
  · intro hq
    constructor <;> intro hiv <;> subst hiv <;> simp_all
  · intro ⟨hq1, hq2⟩
    exact absurd hp hq1
  · intro k1 k2v h1 h2
    simp only [show ({ g with
        p1_kept := some kv,
        winner := some (if resolve kv k2 then g.player1 else g.player2),
        phase := 5 } : Game).p1_kept = some kv from rfl] at h1
    simp only [show ({ g with
        p1_kept := some kv,
        winner := some (if resolve kv k2 then g.player1 else g.player2),
        phase := 5 } : Game).p2_kept = g.p2_kept from rfl, hk2] at h2
    injection h1 with h1
    injection h2 with h2
    subst h1
    subst h2
    exact ⟨rfl, rfl, rfl⟩
  · intro hq
    constructor <;> intro hiv <;> subst hiv <;> simp_all
  · intro ⟨hq1, hq2⟩
    exact absurd hp hq1
  · intro k1 k2v h1 h2
    rw [show ({ g with p1_kept := some kv } : Game).p2_kept = g.p2_kept
        from rfl, hk2] at h2
    exact absurd h2 (by simp)
  · intro hq
    exact absurd hq hp1
  · intro ⟨hq1, hq2⟩
    constructor <;> intro hiv <;> subst hiv <;> simp_all
  · intro k1 k2v h1 h2
    simp only [show ({ g with
        p2_kept := some kv,
        winner := some (if resolve k2 kv then g.player1 else g.player2),
        phase := 5 } : Game).p2_kept = some kv from rfl] at h2
    simp only [show ({ g with
        p2_kept := some kv,
        winner := some (if resolve k2 kv then g.player1 else g.player2),
        phase := 5 } : Game).p1_kept = g.p1_kept from rfl, hk2] at h1
    injection h1 with h1
    injection h2 with h2
    subst h1
    subst h2
    exact ⟨rfl, rfl, rfl⟩
  · intro hq
    exact absurd hq hp1
  · intro ⟨hq1, hq2⟩
    constructor <;> intro hiv <;> subst hiv <;> simp_all
  · intro k1 k2v h1 h2
    rw [show ({ g with p2_kept := some kv } : Game).p1_kept = g.p1_kept
        from rfl, hk2] at h1
    exact absurd h1 (by simp)

/-- C7 witness: on the phase-4 record G4, player 1 revealing choice index 0
keeps the stored left hand. -/
theorem C7_choice_selection_witness :
    ({ G4 with p1_kept := some 0 } : Game).p1_kept = G4.p1_left :=
  ((C7_choice_selection hashId G4 { G4 with p1_kept := some 0 } none 1 0 salt0
      rfl).1 rfl).1 rfl

/-- C10: every session record reachable through any sequence of public
calls (including re-running start_game) has both hands commitments present
in phase 2, and all four revealed hands plus both choice commitments
present in phase 4; consequently the commitment unwrap in reveal_hands and
the choice-commitment and left/right unwraps in reveal_choice can never
trap on a reachable record. -/
theorem C10_reachable_no_panic (keccak : Bytes → Digest) (calls : List Call)
    (g : Game) (hreach : run keccak none calls = some g) :
    (g.phase = 2 → g.p1_commit.isSome ∧ g.p2_commit.isSome) ∧
    (g.phase = 4 →
       g.p1_left.isSome ∧ g.p1_right.isSome ∧ g.p2_left.isSome ∧
       g.p2_right.isSome ∧ g.p1_choice_commit.isSome ∧
       g.p2_choice_commit.isSome) ∧
    (∀ p l r salt, reveal_hands keccak (some g) p l r salt ≠ .panic) ∧
    (∀ p i salt, reveal_choice keccak (some g) p i salt ≠ .panic) := by
  have hInv := reachable_inv hreach
  refine ⟨fun h => hInv.1 (by omega), fun h => ?_,
    fun p l r salt => reveal_hands_no_panic hInv,
    fun p i salt => reveal_choice_no_panic hInv⟩
  obtain ⟨ha, hb, hcl, hd⟩ := hInv.2.1 (by omega)
  obtain ⟨he, hf⟩ := hInv.2.2.1 (by omega)
  exact ⟨ha, hb, hcl, hd, he, hf⟩

/-- C10 witness: on the reachable fresh record G1 the reveal operations
cannot trap. -/
theorem C10_reachable_no_panic_witness :
    reveal_hands hashId (some G1) 1 0 1 salt0 ≠ .panic :=
  (C10_reachable_no_panic hashId [.startGame 1 2 0 0] G1 rfl).2.2.1 1 0 1 salt0

end Ctm
